import Mathlib

/-!
# Status middleware (`middleware/status/status.go`)

A shallow embedding of the error middleware of package `status`: the two
translation functions `errorEncode` and `errorDecode`, the option plumbing
(`WithHandler`) and the two wrappers `Server` and `Client`.

Conventions of the embedding.

* A Go `error` is `Option GoError`; `none` is the nil error.
* A Go pointer that may be nil is an `Option`; dereferencing `none` is the
  run-time panic `Panic.nilDereference`.
* A function that may panic returns `Except Panic _`.
* `int32` values are integers in the range of `IsInt32`; the conversions
  `codes.Code(x)` and `int32(c)` wrap modulo `2^32`.
* A Go `string` is a sequence of bytes (`GoString`); a literal of the source is
  the UTF-8 encoding `utf8 "..."` of its text, and `validUTF8` is the check
  that serialization applies to the string fields of a message.
* Protocol-buffer messages are modelled at the level of their decoded content;
  an `anypb.Any` is modelled by what unpacking it yields.
-/

namespace StatusMiddleware

/-! ## Machine integers -/

/-- Range of a Go `int32`. -/
def IsInt32 (x : Int) : Prop := -2147483648 ≤ x ∧ x < 2147483648

instance (x : Int) : Decidable (IsInt32 x) := by
  unfold IsInt32; exact inferInstance

/-- Conversion `codes.Code(x)` of an `int32` to the `uint32` type `codes.Code`. -/
def toUint32 (x : Int) : Nat := (x % 4294967296).toNat

/-- Conversion `int32(c)` of a `uint32` (here any natural, wrapped) to `int32`. -/
def toInt32 (c : Nat) : Int :=
  if c % 4294967296 < 2147483648 then (c % 4294967296 : Nat)
  else ((c % 4294967296 : Nat) : Int) - 4294967296

/-- Constant `codes.OK`. -/
def codes.OK : Nat := 0

/-- Constant `codes.Unknown`. -/
def codes.Unknown : Nat := 2

/-! ## Strings -/

/-- A Go `string`: an arbitrary sequence of bytes, each given by its value, a
number below 256. -/
abbrev GoString := List Nat

/-- The UTF-8 encoding of one character. -/
def encodeChar (c : Char) : GoString :=
  let n := c.toNat
  if n < 128 then [n]
  else if n < 2048 then [192 + n / 64, 128 + n % 64]
  else if n < 65536 then [224 + n / 4096, 128 + n / 64 % 64, 128 + n % 64]
  else [240 + n / 262144, 128 + n / 4096 % 64, 128 + n / 64 % 64, 128 + n % 64]

/-- The UTF-8 encoding of a list of characters. -/
def utf8Chars : List Char → GoString
  | [] => []
  | c :: cs => encodeChar c ++ utf8Chars cs

/-- The Go string written as the literal with the given text. -/
def utf8 (text : String) : GoString := utf8Chars text.data

/-- Whether a byte is a UTF-8 continuation byte. -/
def isCont (b : Nat) : Bool := decide (128 ≤ b ∧ b ≤ 191)

/-- The check `utf8.ValidString(s)`: whether the bytes are well-formed UTF-8 (no
overlong form, no surrogate, nothing above U+10FFFF). -/
def validUTF8 : GoString → Bool
  | [] => true
  | b0 :: rest =>
    if b0 < 128 then validUTF8 rest
    else if 194 ≤ b0 ∧ b0 ≤ 223 then
      match rest with
      | b1 :: r => isCont b1 && validUTF8 r
      | _ => false
    else if 224 ≤ b0 ∧ b0 ≤ 239 then
      match rest with
      | b1 :: b2 :: r =>
        decide ((if b0 = 224 then 160 else 128) ≤ b1 ∧ b1 ≤ (if b0 = 237 then 159 else 191)) &&
          isCont b2 && validUTF8 r
      | _ => false
    else if 240 ≤ b0 ∧ b0 ≤ 244 then
      match rest with
      | b1 :: b2 :: b3 :: r =>
        decide ((if b0 = 240 then 144 else 128) ≤ b1 ∧ b1 ≤ (if b0 = 244 then 143 else 191)) &&
          isCont b2 && isCont b3 && validUTF8 r
      | _ => false
    else false

/-! ## Protocol-buffer messages and wire statuses -/

mutual
/-- A concrete protocol-buffer message (`proto.Message`), as far as this unit
tells messages apart: the canonical `errdetails.ErrorInfo` with its three
fields, an `anypb.Any` envelope, or a message of some other linked type, named
by its type and a rendering of its (well-formed) content. -/
inductive Message where
  | errorInfo (domain reason : GoString) (metadata : List (GoString × GoString))
  | any (a : AnyMsg)
  | other (typeName content : String)
/-- An `anypb.Any` envelope, modelled by what its payload holds: either the
payload is the encoding of the message `m` of a linked type, or it cannot be
unpacked at all (unknown type URL or malformed payload) and unpacking reports
`failure`. The envelopes that the unit meets come out of `Details()`, that is,
out of `proto.Unmarshal`, so the type URL is valid text. -/
inductive AnyMsg where
  | packed (m : Message)
  | undecodable (typeUrl : String) (failure : GoString)
end

/-- The wire status `spb.Status` behind a `*status.Status`: the `int32` code,
the text and the serialized detail attachments. -/
structure Status where
  code : Int
  message : GoString
  details : List AnyMsg

/-- Modelled from the spec: the internal structured error `errors.Error` of
package `errors`, which is not among the sources. The source reads and writes
the fields `Code` (an `int32`), `Reason` and `Message`; the spec's data model
adds the ordered detail payloads in their opaque-any form. -/
structure Error where
  Code : Int
  Reason : GoString
  Message : GoString
  Details : List AnyMsg

/-- A non-nil Go `error` value: an internal structured error (`*errors.Error`),
an error carrying a wire status (what `(*status.Status).Err` returns, or any
error whose `GRPCStatus` method returns that status), or any other error, known
by its `Error()` text. -/
inductive GoError where
  | structured (e : Error)
  | status (s : Status)
  | plain (text : GoString)

/-- A run-time panic of the Go program. -/
inductive Panic where
  | nilDereference
  | typeAssertion

/-- An element of the `[]interface{}` returned by `(*status.Status).Details`:
the unpacked message, or the error met while unpacking. -/
inductive DetailValue where
  | message (m : Message)
  | error (e : GoError)

/-! ## Library operations used by the unit -/

/-- Whether every string field of the message itself is valid UTF-8, which is
what `proto.Marshal` and `proto.Unmarshal` require of a message: the three
fields of an `ErrorInfo`, keys and values of its metadata included. The type
URL of an `Any` and the content of a message of another type are valid text,
and the payload of an `Any` is a bytes field, which is not looked into. -/
def Message.wellFormed : Message → Bool
  | .errorInfo domain reason metadata =>
    validUTF8 domain && validUTF8 reason &&
      metadata.all fun kv => validUTF8 kv.1 && validUTF8 kv.2
  | .any _ => true
  | .other _ _ => true

/-- The error of `proto.Marshal` and `proto.Unmarshal` on a string field that is
not valid UTF-8. -/
def invalidUTF8Error : GoError := .plain (utf8 "string field contains invalid UTF-8")

/-- Unpacking `ptypes.UnmarshalAny(a, &ptypes.DynamicAny{})`: the message held
by the envelope, or the conversion failure: that of an envelope that cannot be
unpacked, or the UTF-8 error when a string field of the payload is invalid. -/
def UnmarshalAny : AnyMsg → Except GoError Message
  | .packed m => if m.wellFormed then .ok m else .error invalidUTF8Error
  | .undecodable _ failure => .error (.plain failure)

/-- Packing `ptypes.MarshalAny(m)`: the message is serialized, which fails when
one of its string fields is not valid UTF-8; otherwise the envelope holds the
encoding of `m`. -/
def MarshalAny (m : Message) : Except GoError AnyMsg :=
  if m.wellFormed then .ok (.packed m) else .error invalidUTF8Error

/-- The loop of `WithDetails`: marshal every detail in order, stopping at the
first failure. -/
def marshalAll : List Message → Except GoError (List AnyMsg)
  | [] => .ok []
  | m :: rest =>
    match MarshalAny m with
    | .error e => .error e
    | .ok a =>
      match marshalAll rest with
      | .error e => .error e
      | .ok anys => .ok (a :: anys)

/-- Constructor `status.New(c, msg)`: a status with the code stored as `int32`
and no details. -/
def Status.New (c : Nat) (msg : GoString) : Status :=
  { code := toInt32 c, message := msg, details := [] }

/-- The formatting `fmt.Sprintf("%s: %s", a, b)`. -/
def sprintfColon (a b : GoString) : GoString := a ++ utf8 ": " ++ b

/-- Constructor `status.Newf(c, "%s: %s", a, b)`. -/
def Status.Newf (c : Nat) (a b : GoString) : Status :=
  Status.New c (sprintfColon a b)

/-- Method `(*Status).Code`: `codes.OK` on the nil status. -/
def Status.Code : Option Status → Nat
  | none => codes.OK
  | some s => toUint32 s.code

/-- Method `(*Status).Err`: nil when the code is `codes.OK`, otherwise an error
carrying the status. -/
def Status.Err (s : Option Status) : Option GoError :=
  if Status.Code s = codes.OK then none else s.map GoError.status

/-- Method `(*Status).Details`: every stored attachment unpacked, an attachment
that cannot be unpacked being replaced by the error. -/
def Status.Details : Option Status → List DetailValue
  | none => []
  | some s => s.details.map fun a =>
      match UnmarshalAny a with
      | .ok m => DetailValue.message m
      | .error e => DetailValue.error e

/-- Method `(*Status).WithDetails`: refused on a status with code `codes.OK`;
otherwise the details are marshalled in order and appended, the first marshal
failure being returned. -/
def Status.WithDetails (s : Status) (details : List Message) : Except GoError Status :=
  if Status.Code (some s) = codes.OK then
    .error (.plain (utf8 "no error details for status with code OK"))
  else
    match marshalAll details with
    | .error e => .error e
    | .ok anys => .ok { s with details := s.details ++ anys }

/-- Modelled from the spec: the operations of the internal error abstraction
(package `errors` of this repository, not among the sources) that the unit
calls. `fromNonNil` is `errors.FromError` on a non-nil error (extract the
structured error, or construct one from an opaque error); `fromNil` is its
result on the nil error, `none` being the nil pointer; `GRPCStatus` is the
method `(*Error).GRPCStatus`, the conversion to a transport status carrying
zero or more detail attachments. -/
structure ErrorsPkg where
  fromNonNil : GoError → Error
  fromNil : Option Error
  GRPCStatus : Error → Status

/-- Function `errors.FromError(err)`. -/
def ErrorsPkg.FromError (pkg : ErrorsPkg) : Option GoError → Option Error
  | none => pkg.fromNil
  | some e => some (pkg.fromNonNil e)

/-- Function `status.Convert(err)`: the nil status for the nil error, the status
returned by the error's `GRPCStatus` method when it has one, and otherwise a
status with code `codes.Unknown` and the error's text. -/
def Status.Convert (pkg : ErrorsPkg) : Option GoError → Option Status
  | none => none
  | some (.structured e) => some (pkg.GRPCStatus e)
  | some (.status s) => some s
  | some (.plain text) => some (Status.New codes.Unknown text)

/-- Indexing a Go `map[string]string`: the value of the key, or the empty
string when the key is absent (also on the nil map). -/
def mapIndex (m : List (GoString × GoString)) (key : GoString) : GoString :=
  (m.lookup key).getD (utf8 "")

/-! ## The unit: `status.go` -/

/-- Type `HandlerFunc func(error) error`. -/
abbrev HandlerFunc := Option GoError → Except Panic (Option GoError)

/-- Struct `options`. -/
structure options where
  handler : HandlerFunc

/-- Type `Option func(*options)` of the source: an update of the options. -/
abbrev MiddlewareOption := options → options

/-- Function `WithHandler`. -/
def WithHandler (h : HandlerFunc) : MiddlewareOption :=
  fun o => { o with handler := h }

/-- Type `middleware.Handler`: a call returns a reply (possibly nil) and an
error (possibly nil), or panics. -/
abbrev Handler (Ctx Req Reply : Type) :=
  Ctx → Req → Except Panic (Option Reply × Option GoError)

/-- Type `middleware.Middleware`. -/
abbrev Middleware (Ctx Req Reply : Type) :=
  Handler Ctx Req Reply → Handler Ctx Req Reply

/-- Lines 73 to 75 of `errorEncode`: the unset code is replaced by
`codes.Unknown`, in place. -/
def normalizeCode (se : Error) : Error :=
  if se.Code = 0 then { se with Code := toInt32 codes.Unknown } else se

/-- What the loop of `errorEncode` (lines 84 to 90) ends with: a panic, an early
`return err`, or the assembled detail list. -/
inductive LoopOutcome where
  | panicked (p : Panic)
  | returned (err : GoError)
  | done (details : List Message)

/-- The loop of `errorEncode` over `se.GRPCStatus().Details()`: each element is
asserted to be an `*anypb.Any` and unpacked; the first conversion failure is
returned, otherwise the message is appended to `details`. -/
def encodeLoop : List DetailValue → List Message → LoopOutcome
  | [], details => .done details
  | .message (.any a) :: rest, details =>
    match UnmarshalAny a with
    | .error err => .returned err
    | .ok m => encodeLoop rest (details ++ [m])
  | _ :: _, _ => .panicked .typeAssertion

/-- Function `errorEncode`. -/
def errorEncode (pkg : ErrorsPkg) (err : Option GoError) : Except Panic (Option GoError) :=
  match pkg.FromError err with
  | none => .error .nilDereference
  | some se0 =>
    let se := normalizeCode se0
    let gs := Status.Newf (toUint32 se.Code) se.Reason se.Message
    let details := [Message.errorInfo (utf8 "") se.Reason [(utf8 "message", se.Message)]]
    match encodeLoop (Status.Details (some (pkg.GRPCStatus se))) details with
    | .panicked p => .error p
    | .returned err => .ok (some err)
    | .done details =>
      match gs.WithDetails details with
      | .error err => .ok (some err)
      | .ok gs => .ok (Status.Err (some gs))

/-- The loop of `errorDecode` (lines 102 to 109): the first element that is an
`*errdetails.ErrorInfo` overwrites reason and message and ends the scan. -/
def decodeLoop (se : Error) : List DetailValue → Error
  | [] => se
  | .message (.errorInfo _ reason metadata) :: _ =>
    { se with Reason := reason, Message := mapIndex metadata (utf8 "message") }
  | _ :: rest => decodeLoop se rest

/-- Function `errorDecode`. -/
def errorDecode (pkg : ErrorsPkg) (err : Option GoError) : Except Panic (Option GoError) :=
  let gs := Status.Convert pkg err
  match pkg.FromError (Status.Err gs) with
  | none => .error .nilDereference
  | some se0 =>
    let se := { se0 with Code := toInt32 (Status.Code gs) }
    .ok (some (.structured (decodeLoop se (Status.Details gs))))

/-- The option loop `for _, o := range opts { o(&options) }`. -/
def applyOptions (init : options) (opts : List MiddlewareOption) : options :=
  opts.foldl (fun o f => f o) init

/-- Function `Server`. -/
def Server {Ctx Req Reply : Type} (pkg : ErrorsPkg) (opts : List MiddlewareOption) :
    Middleware Ctx Req Reply :=
  let options := applyOptions { handler := errorEncode pkg } opts
  fun handler ctx req =>
    match handler ctx req with
    | .error p => .error p
    | .ok (reply, err) =>
      match err with
      | some e =>
        match options.handler (some e) with
        | .error p => .error p
        | .ok err2 => .ok (none, err2)
      | none => .ok (reply, none)

/-- Function `Client`. -/
def Client {Ctx Req Reply : Type} (pkg : ErrorsPkg) (opts : List MiddlewareOption) :
    Middleware Ctx Req Reply :=
  let options := applyOptions { handler := errorDecode pkg } opts
  fun handler ctx req =>
    match handler ctx req with
    | .error p => .error p
    | .ok (reply, err) =>
      match err with
      | some e =>
        match options.handler (some e) with
        | .error p => .error p
        | .ok err2 => .ok (none, err2)
      | none => .ok (reply, none)

/-- A pointer to an `errors.Error` struct. -/
abbrev Ptr := Nat

/-- The `errors.Error` structs in memory, by pointer. -/
abbrev Heap := Ptr → Option Error

/-- The write `*p = e`. -/
def Heap.store (h : Heap) (p : Ptr) (e : Error) : Heap :=
  fun q => if q = p then some e else h q

/-- The memory effect of `errorEncode`, for the pointer `se` that
`errors.FromError(err)` returned: line 74 is the only write of the function, and
it goes through `se`. When `err` is itself a `*errors.Error`, `se` is that
input (the spec: the structured error is extracted from an input that already
is one). -/
def errorEncodeStore (h : Heap) (se : Ptr) : Heap :=
  match h se with
  | none => h
  | some e =>
    if e.Code = 0 then Heap.store h se { e with Code := toInt32 codes.Unknown } else h

/-- Memory holding the error `unsetXY` of the concrete inputs at pointer 1. -/
def unsetHeap : Heap := fun q =>
  if q = 1 then some { Code := 0, Reason := utf8 "X", Message := utf8 "Y", Details := [] }
  else none

/-- The pre-existing detail attachments of a structured error, as the loop of
`errorEncode` meets them: `se.GRPCStatus().Details()` after line 75. -/
def preexisting (pkg : ErrorsPkg) (se : Error) : List DetailValue :=
  Status.Details (some (pkg.GRPCStatus (normalizeCode se)))

/-- An `*anypb.Any` as an element of a `Details()` result. -/
def asAny (a : AnyMsg) : DetailValue := .message (.any a)

/-- The form in which the error abstraction hands over the pre-existing details,
as the unchecked assertion `any1.(*anypb.Any)` on line 86 presumes: every
element of `se.GRPCStatus().Details()` is an envelope, for every structured
error. -/
def EnvelopeForm (pkg : ErrorsPkg) : Prop :=
  ∀ se : Error, ∃ anys : List AnyMsg,
    Status.Details (some (pkg.GRPCStatus se)) = anys.map asAny

/-- The canonical error-info attachment built at lines 78 to 81. -/
def canonicalInfo (se : Error) : Message :=
  .errorInfo (utf8 "") se.Reason [(utf8 "message", se.Message)]

/-- The wire status that `errorEncode` assembles from a structured error whose
pre-existing details unpack to `ms`. -/
def encoded (se : Error) (ms : List Message) : Status :=
  { code := (normalizeCode se).Code
    message := sprintfColon se.Reason se.Message
    details := (canonicalInfo se :: ms).map AnyMsg.packed }

/-- Whether an element of a `Details()` result takes the branch
`case *errdetails.ErrorInfo` of the type switch of `errorDecode`. -/
def isErrorInfo : DetailValue → Bool
  | .message (.errorInfo _ _ _) => true
  | _ => false

/-! ## Concrete inputs -/

/-- An error-info attachment received from a further upstream call. -/
def upstreamInfo : Message :=
  .errorInfo (utf8 "upstream") (utf8 "QUOTA") [(utf8 "message", utf8 "slow down")]

/-- A detail attachment that is not the canonical error-info shape. -/
def retryInfo : Message := .other "google.rpc.RetryInfo" "retry_delay: 5s"

/-- An envelope whose type is not linked in, so that it cannot be unpacked. -/
def strayAny : AnyMsg :=
  .undecodable "type.googleapis.com/acme.Stray"
    (utf8 "any: message type acme.Stray is not linked in")

/-- The error of the round-trip example, relaying an upstream error-info. -/
def missingWidget : Error :=
  { Code := 5, Reason := utf8 "NOT_FOUND", Message := utf8 "missing widget",
    Details := [.packed upstreamInfo] }

/-- An error with the unset code and no details. -/
def unsetXY : Error := { Code := 0, Reason := utf8 "X", Message := utf8 "Y", Details := [] }

/-- An error carrying one pre-existing non-canonical detail. -/
def withRetry : Error :=
  { Code := 14, Reason := utf8 "UNAVAILABLE", Message := utf8 "try later",
    Details := [.packed retryInfo] }

/-- An error whose second detail cannot be unpacked. -/
def withStray : Error :=
  { Code := 13, Reason := utf8 "INTERNAL", Message := utf8 "oops",
    Details := [.packed retryInfo, strayAny, .packed upstreamInfo] }

/-- A wire status whose text disagrees with its canonical attachment, which
comes after a non-canonical one and before a second error-info. -/
def mixedStatus : Status :=
  { code := 7, message := utf8 "unrelated text",
    details := [.packed retryInfo,
      .packed (.errorInfo (utf8 "") (utf8 "DENIED") [(utf8 "message", utf8 "no entry")]),
      .packed upstreamInfo] }

/-- A wire status with the code `codes.OK`. -/
def okStatus : Status := { code := 0, message := utf8 "fine", details := [] }

/-- A wire status whose only attachment is an error-info without a "message"
entry in its metadata. -/
def bareInfoStatus : Status :=
  { code := 3, message := utf8 "boom",
    details :=
      [.packed (.errorInfo (utf8 "") (utf8 "BAD_INPUT") [(utf8 "hint", utf8 "check the id")])] }

/-- An error handler that replaces every error by a plain error with the given
text. -/
def relabel (text : String) : HandlerFunc := fun _ => .ok (some (.plain (utf8 text)))

/-- An error handler that always panics. -/
def crash : HandlerFunc := fun _ => .error .typeAssertion

/-- A next-handler that fails with the given error and a reply. -/
def failing (e : GoError) : Handler Unit Nat Nat := fun _ _ => .ok (some 42, some e)

/-- An error whose reason is the single byte 0xFF, which is not valid UTF-8. -/
def garbledWidget : Error :=
  { Code := 5, Reason := [255], Message := utf8 "missing widget", Details := [] }

/-- An error with one pre-existing detail whose message is a lone continuation
byte, which is not valid UTF-8. -/
def garbledRetry : Error :=
  { Code := 14, Reason := utf8 "UNAVAILABLE", Message := [128],
    Details := [.packed retryInfo] }

/-- An error without details whose message starts with the byte 0xC0, which is
not valid UTF-8. -/
def garbledPlain : Error :=
  { Code := 3, Reason := utf8 "BAD", Message := [192, 32], Details := [] }

/-- An error without details whose reason is an encoded surrogate, which is not
valid UTF-8. -/
def garbledInternal : Error :=
  { Code := 13, Reason := [237, 160, 128], Message := utf8 "oops", Details := [] }

/-- A wire status with the code `codes.OK` and a canonical error-info. -/
def okInfoStatus : Status :=
  { code := 0, message := utf8 "fine",
    details :=
      [.packed (.errorInfo (utf8 "") (utf8 "DENIED") [(utf8 "message", utf8 "no entry")])] }

/-- A wire status with the code `codes.OK` and one non-canonical attachment. -/
def okRetryStatus : Status :=
  { code := 0, message := utf8 "fine", details := [.packed retryInfo] }

/-- Modelled from the spec: a reference instance of the internal error
abstraction (package `errors`, not among the sources), used to evaluate the
unit on concrete inputs. A structured error is extracted as it is; any other
error gives a baseline error from its code and text; the nil error gives the
nil pointer; `GRPCStatus` relays the code, the message and the detail payloads
in their opaque-any form. -/
def refPkg : ErrorsPkg where
  fromNonNil
    | .structured e => e
    | .status s => { Code := s.code, Reason := utf8 "", Message := s.message, Details := [] }
    | .plain text => { Code := 2, Reason := utf8 "", Message := text, Details := [] }
  fromNil := none
  GRPCStatus e :=
    { code := e.Code, message := e.Message,
      details := e.Details.map fun a => AnyMsg.packed (Message.any a) }

/-! ## Auxiliary lemmas -/

theorem toInt32_toUint32 (x : Int) (h : IsInt32 x) : toInt32 (toUint32 x) = x := by
  unfold IsInt32 at h
  unfold toInt32 toUint32
  split <;> omega

theorem toUint32_toInt32_toUint32 (x : Int) (h : IsInt32 x) :
    toUint32 (toInt32 (toUint32 x)) = toUint32 x := by
  rw [toInt32_toUint32 x h]

theorem toUint32_ne_zero (x : Int) (h : IsInt32 x) (hx : x ≠ 0) : toUint32 x ≠ 0 := by
  unfold IsInt32 at h
  unfold toUint32
  omega

theorem normalizeCode_Reason (se : Error) : (normalizeCode se).Reason = se.Reason := by
  unfold normalizeCode; split <;> rfl

theorem normalizeCode_Message (se : Error) : (normalizeCode se).Message = se.Message := by
  unfold normalizeCode; split <;> rfl

theorem normalizeCode_Code (se : Error) :
    (normalizeCode se).Code = if se.Code = 0 then 2 else se.Code := by
  unfold normalizeCode; split <;> simp [toInt32, codes.Unknown]

theorem normalizeCode_isInt32 (se : Error) (h : IsInt32 se.Code) :
    IsInt32 (normalizeCode se).Code := by
  rw [normalizeCode_Code]; split
  · unfold IsInt32; omega
  · exact h

theorem normalizeCode_ne_zero (se : Error) : (normalizeCode se).Code ≠ 0 := by
  rw [normalizeCode_Code]; split <;> omega

theorem wellFormed_canonicalInfo (se : Error) :
    (canonicalInfo se).wellFormed = (validUTF8 se.Reason && validUTF8 se.Message) := by
  have h1 : validUTF8 (utf8 "") = true := by decide
  have h2 : validUTF8 (utf8 "message") = true := by decide
  simp [canonicalInfo, Message.wellFormed, h1, h2]

theorem marshalAll_eq (ms : List Message) (h : ∀ m ∈ ms, m.wellFormed = true) :
    marshalAll ms = .ok (ms.map AnyMsg.packed) := by
  induction ms with
  | nil => rfl
  | cons m rest ih =>
    have hm := h m (List.mem_cons_self _ _)
    have ih2 := ih (fun x hx => h x (List.mem_cons_of_mem _ hx))
    simp [marshalAll, MarshalAny, hm, ih2]

theorem marshalAll_head_error (m : Message) (rest : List Message) (h : m.wellFormed = false) :
    marshalAll (m :: rest) = .error invalidUTF8Error := by
  simp [marshalAll, MarshalAny, h]

theorem marshalAll_error_plain (ms : List Message) (e : GoError)
    (h : marshalAll ms = .error e) : ∃ text, e = .plain text := by
  induction ms with
  | nil => simp [marshalAll] at h
  | cons m rest ih =>
    by_cases hm : m.wellFormed = true
    · cases hr : marshalAll rest with
      | error e2 =>
        simp only [marshalAll, MarshalAny, hm, if_true, hr, Except.error.injEq] at h
        subst h
        exact ih hr
      | ok anys => simp [marshalAll, MarshalAny, hm, hr] at h
    · have hf : m.wellFormed = false := by simpa using hm
      rw [marshalAll_head_error m rest hf] at h
      simp only [Except.error.injEq] at h
      exact ⟨_, h.symm⟩

theorem unmarshalAny_ok_iff (a : AnyMsg) (m : Message) :
    UnmarshalAny a = .ok m ↔ a = .packed m ∧ m.wellFormed = true := by
  cases a with
  | packed m2 =>
    by_cases hw : m2.wellFormed = true
    · simp only [UnmarshalAny, hw, if_true, Except.ok.injEq, AnyMsg.packed.injEq]
      constructor
      · intro h; subst h; exact ⟨rfl, hw⟩
      · intro h; exact h.1
    · simp only [UnmarshalAny, hw, AnyMsg.packed.injEq]
      constructor
      · intro h; cases h
      · intro h; rw [h.1] at hw; exact absurd h.2 hw
  | undecodable u f => simp [UnmarshalAny]

theorem unmarshalAny_error_plain (a : AnyMsg) (e : GoError)
    (h : UnmarshalAny a = .error e) : ∃ text, e = .plain text := by
  cases a with
  | packed m =>
    by_cases hw : m.wellFormed = true
    · simp [UnmarshalAny, hw] at h
    · have hf : m.wellFormed = false := by simpa using hw
      simp only [UnmarshalAny, hf, Bool.false_eq_true, if_false, Except.error.injEq] at h
      exact ⟨_, h.symm⟩
  | undecodable u f =>
    simp only [UnmarshalAny, Except.error.injEq] at h
    exact ⟨f, h.symm⟩

theorem forall₂_unmarshal_eq (anys : List AnyMsg) (ms : List Message)
    (h : List.Forall₂ (fun a m => UnmarshalAny a = .ok m) anys ms) :
    anys = ms.map AnyMsg.packed := by
  induction h with
  | nil => rfl
  | cons hd _ ih => rw [((unmarshalAny_ok_iff _ _).mp hd).1, ih]; rfl

theorem forall₂_unmarshal_wellFormed (anys : List AnyMsg) (ms : List Message)
    (h : List.Forall₂ (fun a m => UnmarshalAny a = .ok m) anys ms) :
    ∀ m ∈ ms, m.wellFormed = true := by
  induction h with
  | nil => intro m hm; cases hm
  | cons hd _ ih =>
    intro m hm
    rcases List.mem_cons.mp hm with rfl | hm2
    · exact ((unmarshalAny_ok_iff _ _).mp hd).2
    · exact ih m hm2

theorem encodeLoop_done (anys : List AnyMsg) (ms : List Message)
    (h : List.Forall₂ (fun a m => UnmarshalAny a = .ok m) anys ms) (acc : List Message) :
    encodeLoop (anys.map asAny) acc = .done (acc ++ ms) := by
  induction h generalizing acc with
  | nil => simp [encodeLoop]
  | @cons a m _ _ hd _ ih =>
    simp only [List.map_cons, asAny, encodeLoop, hd]
    have := ih (acc ++ [m])
    simpa [asAny] using this

theorem encodeLoop_returned (pre : List AnyMsg) (bad : AnyMsg) (post : List DetailValue)
    (failure : GoError) (hok : ∀ a ∈ pre, ∃ m, UnmarshalAny a = .ok m)
    (hbad : UnmarshalAny bad = .error failure) (acc : List Message) :
    encodeLoop (pre.map asAny ++ asAny bad :: post) acc = .returned failure := by
  induction pre generalizing acc with
  | nil => simp [encodeLoop, asAny, hbad]
  | cons a rest ih =>
    obtain ⟨m, hm⟩ := hok a (List.mem_cons_self _ _)
    simp only [List.map_cons, List.cons_append, asAny, encodeLoop, hm]
    have := ih (fun x hx => hok x (List.mem_cons_of_mem _ hx)) (acc ++ [m])
    simpa [asAny] using this

theorem encodeLoop_returned_plain (ds : List DetailValue) (acc : List Message) (e : GoError)
    (h : encodeLoop ds acc = .returned e) : ∃ text, e = .plain text := by
  induction ds generalizing acc with
  | nil => simp [encodeLoop] at h
  | cons v rest ih =>
    cases v with
    | error e2 => simp [encodeLoop] at h
    | message m =>
      cases m with
      | errorInfo d r md => simp [encodeLoop] at h
      | other t c => simp [encodeLoop] at h
      | any a =>
        cases hu : UnmarshalAny a with
        | error e2 =>
          simp only [encodeLoop, hu, LoopOutcome.returned.injEq] at h
          subst h
          exact unmarshalAny_error_plain a _ hu
        | ok m2 =>
          simp only [encodeLoop, hu] at h
          exact ih _ h

theorem withDetails_ok (s : Status) (ms : List Message) (h : Status.Code (some s) ≠ codes.OK)
    (hw : ∀ m ∈ ms, m.wellFormed = true) :
    s.WithDetails ms = .ok { s with details := s.details ++ ms.map AnyMsg.packed } := by
  simp [Status.WithDetails, h, marshalAll_eq ms hw]

theorem withDetails_error_plain (s : Status) (ms : List Message) (e : GoError)
    (h : s.WithDetails ms = .error e) : ∃ text, e = .plain text := by
  unfold Status.WithDetails at h
  split at h
  · simp only [Except.error.injEq] at h; exact ⟨_, h.symm⟩
  · cases hm : marshalAll ms with
    | error e2 =>
      simp only [hm, Except.error.injEq] at h
      subst h
      exact marshalAll_error_plain ms _ hm
    | ok anys => simp [hm] at h

theorem withDetails_code_message (s t : Status) (ms : List Message)
    (h : s.WithDetails ms = .ok t) : t.code = s.code ∧ t.message = s.message := by
  unfold Status.WithDetails at h
  split at h
  · simp at h
  · cases hm : marshalAll ms with
    | error e2 => simp [hm] at h
    | ok anys =>
      simp only [hm, Except.ok.injEq] at h
      subst h; exact ⟨rfl, rfl⟩

theorem newf_code_ne_ok (se : Error) (h32 : IsInt32 se.Code) :
    Status.Code (some (Status.Newf (toUint32 (normalizeCode se).Code)
      (normalizeCode se).Reason (normalizeCode se).Message)) ≠ codes.OK := by
  have hn32 := normalizeCode_isInt32 se h32
  simp only [Status.Code, Status.Newf, Status.New, codes.OK]
  rw [toUint32_toInt32_toUint32 _ hn32]
  exact toUint32_ne_zero _ hn32 (normalizeCode_ne_zero se)

theorem errorEncode_unfold (pkg : ErrorsPkg) (err : Option GoError) (se : Error)
    (hse : pkg.FromError err = some se) :
    errorEncode pkg err =
      match encodeLoop (preexisting pkg se) [canonicalInfo (normalizeCode se)] with
      | .panicked p => .error p
      | .returned e => .ok (some e)
      | .done details =>
        match (Status.Newf (toUint32 (normalizeCode se).Code) (normalizeCode se).Reason
            (normalizeCode se).Message).WithDetails details with
        | .error e => .ok (some e)
        | .ok gs => .ok (Status.Err (some gs)) := by
  simp only [errorEncode, hse, preexisting, canonicalInfo]

theorem errorEncode_of_converts (pkg : ErrorsPkg) (err : Option GoError) (se : Error)
    (anys : List AnyMsg) (ms : List Message)
    (hse : pkg.FromError err = some se) (h32 : IsInt32 se.Code)
    (hr : validUTF8 se.Reason = true) (hm : validUTF8 se.Message = true)
    (hpre : preexisting pkg se = anys.map asAny)
    (hconv : List.Forall₂ (fun a m => UnmarshalAny a = .ok m) anys ms) :
    errorEncode pkg err = .ok (some (.status (encoded se ms))) := by
  have hn32 := normalizeCode_isInt32 se h32
  have hne := toUint32_ne_zero _ hn32 (normalizeCode_ne_zero se)
  have hloop := encodeLoop_done anys ms hconv [canonicalInfo (normalizeCode se)]
  have hcode := newf_code_ne_ok se h32
  have hw : ∀ m ∈ [canonicalInfo (normalizeCode se)] ++ ms, m.wellFormed = true := by
    intro m hmem
    rcases List.mem_append.mp hmem with h1 | h2
    · rw [List.mem_singleton] at h1
      rw [h1, wellFormed_canonicalInfo, normalizeCode_Reason, normalizeCode_Message, hr, hm]
      rfl
    · exact forall₂_unmarshal_wellFormed anys ms hconv m h2
  rw [errorEncode_unfold pkg err se hse, hpre, hloop]
  simp only [withDetails_ok _ _ hcode hw]
  simp only [Status.Err, Status.Code, Status.Newf, Status.New, codes.OK,
    toUint32_toInt32_toUint32 _ hn32, hne, if_false, Option.map_some',
    toInt32_toUint32 _ hn32, normalizeCode_Reason, normalizeCode_Message]
  simp [encoded, canonicalInfo, normalizeCode_Reason, normalizeCode_Message]

theorem errorEncode_of_garbled (pkg : ErrorsPkg) (err : Option GoError) (se : Error)
    (anys : List AnyMsg) (ms : List Message)
    (hse : pkg.FromError err = some se) (h32 : IsInt32 se.Code)
    (hbad : (validUTF8 se.Reason && validUTF8 se.Message) = false)
    (hpre : preexisting pkg se = anys.map asAny)
    (hconv : List.Forall₂ (fun a m => UnmarshalAny a = .ok m) anys ms) :
    errorEncode pkg err = .ok (some invalidUTF8Error) := by
  have hloop := encodeLoop_done anys ms hconv [canonicalInfo (normalizeCode se)]
  have hcode := newf_code_ne_ok se h32
  have hw : (canonicalInfo (normalizeCode se)).wellFormed = false := by
    rw [wellFormed_canonicalInfo, normalizeCode_Reason, normalizeCode_Message, hbad]
  rw [errorEncode_unfold pkg err se hse, hpre, hloop]
  have hwd : (Status.Newf (toUint32 (normalizeCode se).Code) (normalizeCode se).Reason
      (normalizeCode se).Message).WithDetails ([canonicalInfo (normalizeCode se)] ++ ms) =
      .error invalidUTF8Error := by
    simp only [Status.WithDetails, hcode, if_false, List.singleton_append,
      marshalAll_head_error _ ms hw]
  simp only [hwd]

theorem errorEncode_status_inv (pkg : ErrorsPkg) (err : Option GoError) (se : Error)
    (st : Status) (hse : pkg.FromError err = some se)
    (henc : errorEncode pkg err = .ok (some (.status st))) :
    st.code = toInt32 (toUint32 (normalizeCode se).Code) ∧
      st.message = sprintfColon se.Reason se.Message := by
  rw [errorEncode_unfold pkg err se hse] at henc
  cases hloop : encodeLoop (preexisting pkg se) [canonicalInfo (normalizeCode se)] with
  | panicked p => simp [hloop] at henc
  | returned e =>
    obtain ⟨text, rfl⟩ := encodeLoop_returned_plain _ _ _ hloop
    simp [hloop] at henc
  | done details =>
    simp only [hloop] at henc
    cases hw : (Status.Newf (toUint32 (normalizeCode se).Code) (normalizeCode se).Reason
        (normalizeCode se).Message).WithDetails details with
    | error e =>
      obtain ⟨text, rfl⟩ := withDetails_error_plain _ _ _ hw
      simp [hw] at henc
    | ok gs =>
      simp only [hw, Except.ok.injEq] at henc
      unfold Status.Err at henc
      split at henc
      · simp at henc
      · simp only [Option.map_some', Option.some.injEq, GoError.status.injEq] at henc
        subst henc
        have := withDetails_code_message _ _ _ hw
        simpa [Status.Newf, Status.New, normalizeCode_Reason, normalizeCode_Message] using this

theorem details_encoded (se : Error) (ms : List Message)
    (hr : validUTF8 se.Reason = true) (hm : validUTF8 se.Message = true)
    (hw : ∀ m ∈ ms, m.wellFormed = true) :
    Status.Details (some (encoded se ms)) =
      DetailValue.message (canonicalInfo se) :: ms.map DetailValue.message := by
  have hc : (canonicalInfo se).wellFormed = true := by
    rw [wellFormed_canonicalInfo, hr, hm]; rfl
  have hmap : ∀ l : List Message, (∀ m ∈ l, m.wellFormed = true) →
      List.map (fun a => match UnmarshalAny a with
        | .ok m => DetailValue.message m
        | .error e => DetailValue.error e) (l.map AnyMsg.packed) =
      l.map DetailValue.message := by
    intro l hl
    induction l with
    | nil => rfl
    | cons x rest ih =>
      have hx := hl x (List.mem_cons_self _ _)
      have ih2 := ih (fun y hy => hl y (List.mem_cons_of_mem _ hy))
      have hu : UnmarshalAny (.packed x) = .ok x := by simp [UnmarshalAny, hx]
      simp only [List.map_cons, hu, ih2]
  have := hmap (canonicalInfo se :: ms) (by
    intro m hmem
    rcases List.mem_cons.mp hmem with rfl | h2
    · exact hc
    · exact hw m h2)
  simpa [Status.Details, encoded] using this

theorem errorDecode_encoded (pkg : ErrorsPkg) (se : Error) (ms : List Message)
    (h32 : IsInt32 se.Code)
    (hr : validUTF8 se.Reason = true) (hm : validUTF8 se.Message = true)
    (hw : ∀ m ∈ ms, m.wellFormed = true) :
    errorDecode pkg (some (.status (encoded se ms))) = .ok (some (.structured
      { Code := (normalizeCode se).Code, Reason := se.Reason, Message := se.Message,
        Details := (pkg.fromNonNil (.status (encoded se ms))).Details })) := by
  have hn32 := normalizeCode_isInt32 se h32
  have hne := toUint32_ne_zero _ hn32 (normalizeCode_ne_zero se)
  have hc : Status.Code (some (encoded se ms)) = toUint32 (normalizeCode se).Code := rfl
  have herr : Status.Err (some (encoded se ms)) = some (.status (encoded se ms)) := by
    simp [Status.Err, hc, codes.OK, hne]
  simp only [errorDecode, Status.Convert, herr, ErrorsPkg.FromError, hc,
    toInt32_toUint32 _ hn32, details_encoded se ms hr hm hw, canonicalInfo, decodeLoop]
  simp [mapIndex, List.lookup]

theorem decodeLoop_first (se : Error) (before after : List DetailValue)
    (domain reason : GoString) (metadata : List (GoString × GoString))
    (hbefore : ∀ v ∈ before, isErrorInfo v = false) :
    decodeLoop se (before ++ .message (.errorInfo domain reason metadata) :: after) =
      { se with Reason := reason, Message := mapIndex metadata (utf8 "message") } := by
  induction before with
  | nil => simp [decodeLoop]
  | cons v rest ih =>
    have hv := hbefore v (List.mem_cons_self _ _)
    have ih2 := ih (fun x hx => hbefore x (List.mem_cons_of_mem _ hx))
    cases v with
    | error e => simpa [decodeLoop] using ih2
    | message m =>
      cases m with
      | errorInfo d r md => simp [isErrorInfo] at hv
      | any a => simpa [decodeLoop] using ih2
      | other t c => simpa [decodeLoop] using ih2

theorem decodeLoop_none (se : Error) (ds : List DetailValue)
    (hnone : ∀ v ∈ ds, isErrorInfo v = false) : decodeLoop se ds = se := by
  induction ds with
  | nil => simp [decodeLoop]
  | cons v rest ih =>
    have hv := hnone v (List.mem_cons_self _ _)
    have ih2 := ih (fun x hx => hnone x (List.mem_cons_of_mem _ hx))
    cases v with
    | error e => simpa [decodeLoop] using ih2
    | message m =>
      cases m with
      | errorInfo d r md => simp [isErrorInfo] at hv
      | any a => simpa [decodeLoop] using ih2
      | other t c => simpa [decodeLoop] using ih2

/-! ## Claims about `errorEncode` -/

/-- Counterexample to C1: an error with the non-zero code 5, no details and a
reason that is not valid UTF-8. The canonical attachment cannot be serialized,
`errorEncode` returns that failure (lines 91 to 94) and not a wire status, and
decoding the failure gives the code 2 and an empty reason, not the code 5 and
the reason of the error. -/
theorem C1_round_trip_garbled :
    garbledWidget.Code ≠ 0 ∧ IsInt32 garbledWidget.Code ∧
    preexisting refPkg garbledWidget = [] ∧
    errorEncode refPkg (some (.structured garbledWidget)) = .ok (some invalidUTF8Error) ∧
    errorDecode refPkg (some invalidUTF8Error) = .ok (some (.structured
      { Code := 2, Reason := utf8 "",
        Message := utf8 "string field contains invalid UTF-8", Details := [] })) ∧
    (2 : Int) ≠ garbledWidget.Code ∧ utf8 "" ≠ garbledWidget.Reason :=
  ⟨by decide, by decide, rfl, rfl, rfl, by decide, by decide⟩

/-- C1 as amended (round trip). For every error whose structured view `se` has a
non-zero `int32` code, a reason and a message that are valid UTF-8, and
pre-existing details that are envelopes which all unpack (to any messages `ms`,
error-info attachments included), `errorEncode` returns a wire status, and
`errorDecode` of that status is a structured error with the code, reason and
message of `se`. -/
theorem C1_round_trip (pkg : ErrorsPkg) (err : Option GoError) (se : Error)
    (anys : List AnyMsg) (ms : List Message)
    (hse : pkg.FromError err = some se) (hcode : se.Code ≠ 0) (h32 : IsInt32 se.Code)
    (hr : validUTF8 se.Reason = true) (hm : validUTF8 se.Message = true)
    (hpre : preexisting pkg se = anys.map asAny)
    (hconv : List.Forall₂ (fun a m => UnmarshalAny a = .ok m) anys ms) :
    ∃ wire, errorEncode pkg err = .ok (some wire) ∧
      errorDecode pkg (some wire) = .ok (some (.structured
        { Code := se.Code, Reason := se.Reason, Message := se.Message,
          Details := (pkg.fromNonNil wire).Details })) := by
  refine ⟨.status (encoded se ms),
    errorEncode_of_converts pkg err se anys ms hse h32 hr hm hpre hconv, ?_⟩
  rw [errorDecode_encoded pkg se ms h32 hr hm (forall₂_unmarshal_wellFormed anys ms hconv),
    normalizeCode_Code, if_neg hcode]

/-- Witness of C1 as amended: code 5, reason NOT_FOUND, message "missing widget",
relaying an upstream error-info attachment. -/
theorem C1_round_trip_witness :
    refPkg.FromError (some (.structured missingWidget)) = some missingWidget ∧
    missingWidget.Code ≠ 0 ∧ IsInt32 missingWidget.Code ∧
    validUTF8 missingWidget.Reason = true ∧ validUTF8 missingWidget.Message = true ∧
    preexisting refPkg missingWidget = [AnyMsg.packed upstreamInfo].map asAny ∧
    List.Forall₂ (fun a m => UnmarshalAny a = .ok m) [AnyMsg.packed upstreamInfo] [upstreamInfo] ∧
    ∃ wire, errorEncode refPkg (some (.structured missingWidget)) = .ok (some wire) ∧
      errorDecode refPkg (some wire) = .ok (some (.structured
        { Code := 5, Reason := utf8 "NOT_FOUND", Message := utf8 "missing widget",
          Details := (refPkg.fromNonNil wire).Details })) :=
  ⟨rfl, by decide, by decide, by decide, by decide, rfl,
    List.Forall₂.cons rfl List.Forall₂.nil,
    C1_round_trip refPkg (some (.structured missingWidget)) missingWidget
      [AnyMsg.packed upstreamInfo] [upstreamInfo] rfl (by decide) (by decide) (by decide)
      (by decide) rfl (List.Forall₂.cons rfl List.Forall₂.nil)⟩

/-- C2 (unset-code normalization). Whenever `errorEncode` produces a wire status
from an error whose structured view is `se` (with an `int32` code), the status
code is `codes.Unknown` when `se.Code` is 0 and is `se.Code` otherwise; it is
never `codes.OK`. -/
theorem C2_unset_code_normalization (pkg : ErrorsPkg) (err : Option GoError) (se : Error)
    (st : Status) (hse : pkg.FromError err = some se) (h32 : IsInt32 se.Code)
    (henc : errorEncode pkg err = .ok (some (.status st))) :
    (se.Code = 0 → Status.Code (some st) = codes.Unknown) ∧
    (se.Code ≠ 0 → st.code = se.Code ∧ Status.Code (some st) = toUint32 se.Code) ∧
    Status.Code (some st) ≠ codes.OK ∧ st.code ≠ 0 := by
  have hn32 := normalizeCode_isInt32 se h32
  obtain ⟨hc, _⟩ := errorEncode_status_inv pkg err se st hse henc
  rw [toInt32_toUint32 _ hn32] at hc
  have hne := normalizeCode_ne_zero se
  have hu := toUint32_ne_zero _ hn32 hne
  rw [normalizeCode_Code] at hc
  refine ⟨?_, ?_, ?_, ?_⟩
  · intro h0
    simp only [Status.Code, hc, if_pos h0]; rfl
  · intro h0
    rw [if_neg h0] at hc
    exact ⟨hc, by simp only [Status.Code, hc]⟩
  · simp only [Status.Code, codes.OK, hc, ← normalizeCode_Code]; exact hu
  · rw [hc, ← normalizeCode_Code]; exact hne

/-- Witness of C2: the unset code 0 goes on the wire as `codes.Unknown`. -/
theorem C2_unset_code_normalization_witness :
    refPkg.FromError (some (.structured unsetXY)) = some unsetXY ∧ IsInt32 unsetXY.Code ∧
    errorEncode refPkg (some (.structured unsetXY)) = .ok (some (.status (encoded unsetXY []))) ∧
    (encoded unsetXY []).code = 2 ∧
    Status.Code (some (encoded unsetXY [])) = codes.Unknown :=
  ⟨rfl, by decide, rfl, rfl,
    (C2_unset_code_normalization refPkg (some (.structured unsetXY)) unsetXY
      (encoded unsetXY []) rfl (by decide) rfl).1 rfl⟩

/-- C3 (text format). Whenever `errorEncode` produces a wire status from an
error whose structured view has reason `r` and message `m`, the status text is
`r` followed by ": " followed by `m`. -/
theorem C3_text_format (pkg : ErrorsPkg) (err : Option GoError) (se : Error) (st : Status)
    (hse : pkg.FromError err = some se)
    (henc : errorEncode pkg err = .ok (some (.status st))) :
    st.message = se.Reason ++ utf8 ": " ++ se.Message :=
  (errorEncode_status_inv pkg err se st hse henc).2

/-- Witness of C3: reason "X" and message "Y" give the text "X: Y". -/
theorem C3_text_format_witness :
    refPkg.FromError (some (.structured unsetXY)) = some unsetXY ∧
    errorEncode refPkg (some (.structured unsetXY)) = .ok (some (.status (encoded unsetXY []))) ∧
    (encoded unsetXY []).message = utf8 "X: Y" :=
  ⟨rfl, rfl,
    (C3_text_format refPkg (some (.structured unsetXY)) unsetXY (encoded unsetXY []) rfl rfl).trans
      (by decide)⟩

/-- Counterexample to C4: an error with one pre-existing non-canonical detail,
which unpacks, and a message that is not valid UTF-8. `errorEncode` returns the
serialization failure of the attach step (lines 91 to 94), which is not a wire
status, so no detail list of length 2 is produced. -/
theorem C4_detail_passthrough_garbled :
    IsInt32 garbledRetry.Code ∧
    preexisting refPkg garbledRetry = [AnyMsg.packed retryInfo].map asAny ∧
    UnmarshalAny (.packed retryInfo) = .ok retryInfo ∧
    errorEncode refPkg (some (.structured garbledRetry)) = .ok (some invalidUTF8Error) ∧
    ∀ st, invalidUTF8Error ≠ .status st :=
  ⟨by decide, rfl, rfl, rfl, fun _ h => by cases h⟩

/-- C4 as amended (detail passthrough). For every error whose structured view
`se` has a reason `r` and a message `m` that are valid UTF-8 and `n`
pre-existing details that are envelopes which all unpack, `errorEncode` returns
a wire status whose detail list has length `n + 1`: the canonical error-info
attachment with reason `r` and metadata exactly `("message", m)` first, then
the `n` original envelopes in their order, unmodified; unpacked, the list is
the canonical attachment followed by the original messages. -/
theorem C4_detail_passthrough (pkg : ErrorsPkg) (err : Option GoError) (se : Error)
    (anys : List AnyMsg) (ms : List Message)
    (hse : pkg.FromError err = some se) (h32 : IsInt32 se.Code)
    (hr : validUTF8 se.Reason = true) (hm : validUTF8 se.Message = true)
    (hpre : preexisting pkg se = anys.map asAny)
    (hconv : List.Forall₂ (fun a m => UnmarshalAny a = .ok m) anys ms) :
    ∃ st, errorEncode pkg err = .ok (some (.status st)) ∧
      st.details.length = anys.length + 1 ∧
      st.details =
        AnyMsg.packed (.errorInfo (utf8 "") se.Reason [(utf8 "message", se.Message)]) :: anys ∧
      Status.Details (some st) =
        DetailValue.message (.errorInfo (utf8 "") se.Reason [(utf8 "message", se.Message)]) ::
          ms.map DetailValue.message := by
  refine ⟨encoded se ms,
    errorEncode_of_converts pkg err se anys ms hse h32 hr hm hpre hconv, ?_, ?_,
    details_encoded se ms hr hm (forall₂_unmarshal_wellFormed anys ms hconv)⟩
  · simp [encoded, hconv.length_eq]
  · rw [forall₂_unmarshal_eq anys ms hconv]; rfl

/-- Witness of C4 as amended: one pre-existing non-canonical detail gives a
detail list of length 2, the canonical attachment first and the original
second. -/
theorem C4_detail_passthrough_witness :
    refPkg.FromError (some (.structured withRetry)) = some withRetry ∧
    IsInt32 withRetry.Code ∧
    validUTF8 withRetry.Reason = true ∧ validUTF8 withRetry.Message = true ∧
    preexisting refPkg withRetry = [AnyMsg.packed retryInfo].map asAny ∧
    List.Forall₂ (fun a m => UnmarshalAny a = .ok m) [AnyMsg.packed retryInfo] [retryInfo] ∧
    ∃ st, errorEncode refPkg (some (.structured withRetry)) = .ok (some (.status st)) ∧
      st.details.length = [AnyMsg.packed retryInfo].length + 1 ∧
      st.details =
        AnyMsg.packed (.errorInfo (utf8 "") (utf8 "UNAVAILABLE")
          [(utf8 "message", utf8 "try later")]) :: [AnyMsg.packed retryInfo] ∧
      Status.Details (some st) =
        DetailValue.message (.errorInfo (utf8 "") (utf8 "UNAVAILABLE")
          [(utf8 "message", utf8 "try later")]) :: [retryInfo].map DetailValue.message :=
  ⟨rfl, by decide, by decide, by decide, rfl, List.Forall₂.cons rfl List.Forall₂.nil,
    C4_detail_passthrough refPkg (some (.structured withRetry)) withRetry
      [AnyMsg.packed retryInfo] [retryInfo] rfl (by decide) (by decide) (by decide) rfl
      (List.Forall₂.cons rfl List.Forall₂.nil)⟩

/-- C5 (encode conversion failure). For every error whose pre-existing details
are envelopes `pre` that unpack, then an envelope `bad` whose unpacking fails
with `failure`, then anything at all, `errorEncode` returns `failure` itself,
which is not a wire status; what follows `bad` is not processed, so the result
is the same for every `post`. -/
theorem C5_encode_conversion_failure (pkg : ErrorsPkg) (err : Option GoError) (se : Error)
    (pre : List AnyMsg) (bad : AnyMsg) (post : List DetailValue) (failure : GoError)
    (hse : pkg.FromError err = some se)
    (hpre : preexisting pkg se = pre.map asAny ++ asAny bad :: post)
    (hok : ∀ a ∈ pre, ∃ m, UnmarshalAny a = .ok m)
    (hbad : UnmarshalAny bad = .error failure) :
    errorEncode pkg err = .ok (some failure) ∧ ∀ st, failure ≠ .status st := by
  constructor
  · unfold preexisting at hpre
    simp only [errorEncode, hse, hpre, encodeLoop_returned pre bad post failure hok hbad]
  · obtain ⟨text, rfl⟩ := unmarshalAny_error_plain bad failure hbad
    intro st h
    cases h

/-- Witness of C5: the second of three details cannot be unpacked; its failure
is the result. -/
theorem C5_encode_conversion_failure_witness :
    refPkg.FromError (some (.structured withStray)) = some withStray ∧
    preexisting refPkg withStray =
      [AnyMsg.packed retryInfo].map asAny ++ asAny strayAny :: [asAny (.packed upstreamInfo)] ∧
    (∀ a ∈ [AnyMsg.packed retryInfo], ∃ m, UnmarshalAny a = .ok m) ∧
    UnmarshalAny strayAny = .error (.plain (utf8 "any: message type acme.Stray is not linked in")) ∧
    errorEncode refPkg (some (.structured withStray)) =
      .ok (some (.plain (utf8 "any: message type acme.Stray is not linked in"))) ∧
    ∀ st, GoError.plain (utf8 "any: message type acme.Stray is not linked in") ≠ .status st :=
  have hok : ∀ a ∈ [AnyMsg.packed retryInfo], ∃ m, UnmarshalAny a = .ok m := by
    intro a ha
    rw [List.mem_singleton] at ha
    exact ⟨retryInfo, by rw [ha]; rfl⟩
  ⟨rfl, rfl, hok, rfl,
    C5_encode_conversion_failure refPkg (some (.structured withStray)) withStray
      [AnyMsg.packed retryInfo] strayAny [asAny (.packed upstreamInfo)]
      (.plain (utf8 "any: message type acme.Stray is not linked in")) rfl rfl hok rfl⟩

/-! ## Claims about `errorDecode` -/

/-- C6 (decode takes reason and message from the first canonical attachment)
does not hold of the code on a wire status with the code `codes.OK`: the status
`okInfoStatus` has a first error-info attachment, `gs.Err()` is nil for it, and
line 101 dereferences the nil pointer that `errors.FromError` returns for nil.
On every wire status with another code the claim holds, for every instance of
the error abstraction: with a first error-info attachment among the unpacked
details (whatever precedes it is not an error-info, whatever follows is
arbitrary), `errorDecode` returns the structured error whose code is the code
of the status, whose reason is the reason of that attachment and whose message
is the "message" entry of its metadata; the status text, the later
attachments and the earlier non-canonical ones do not appear in these fields.
The status `mixedStatus` is such a case. -/
theorem C6_decode_first_canonical_ok_status_panics :
    Status.Details (some okInfoStatus) =
      [.message (.errorInfo (utf8 "") (utf8 "DENIED") [(utf8 "message", utf8 "no entry")])] ∧
    errorDecode refPkg (some (.status okInfoStatus)) = .error .nilDereference ∧
    (∀ (pkg : ErrorsPkg) (err : Option GoError) (gs : Status)
      (before after : List DetailValue) (domain reason : GoString)
      (metadata : List (GoString × GoString)),
      Status.Convert pkg err = some gs → IsInt32 gs.code →
      Status.Code (some gs) ≠ codes.OK →
      Status.Details (some gs) =
        before ++ .message (.errorInfo domain reason metadata) :: after →
      (∀ v ∈ before, isErrorInfo v = false) →
      errorDecode pkg err = .ok (some (.structured
        { Code := gs.code, Reason := reason, Message := mapIndex metadata (utf8 "message"),
          Details := (pkg.fromNonNil (.status gs)).Details }))) ∧
    errorDecode refPkg (some (.status mixedStatus)) = .ok (some (.structured
      { Code := 7, Reason := utf8 "DENIED", Message := utf8 "no entry", Details := [] })) := by
  refine ⟨rfl, rfl, ?_, rfl⟩
  intro pkg err gs before after domain reason metadata hgs h32 hcode hdet hbefore
  have herr : Status.Err (some gs) = some (.status gs) := by
    simp [Status.Err, hcode]
  simp only [errorDecode, hgs, herr, ErrorsPkg.FromError, hdet,
    decodeLoop_first _ before after domain reason metadata hbefore, Status.Code,
    toInt32_toUint32 _ h32]

/-- C7 (decode without canonical attachment) does not hold of the code on a
wire status with the code `codes.OK`: the status `okRetryStatus` has no
error-info attachment, `gs.Err()` is nil for it, and line 101 dereferences the
nil pointer that `errors.FromError` returns for nil. On every wire status with
another code and no error-info attachment among its unpacked details the claim
holds, for every instance of the error abstraction: `errorDecode` returns the
baseline structured error that the abstraction builds from the status, with
the code overwritten by the code of the status, reason and message being
exactly those of the baseline. A plain transport error is such a case. -/
theorem C7_decode_without_canonical_ok_status_panics :
    (∀ v ∈ Status.Details (some okRetryStatus), isErrorInfo v = false) ∧
    errorDecode refPkg (some (.status okRetryStatus)) = .error .nilDereference ∧
    (∀ (pkg : ErrorsPkg) (err : Option GoError) (gs : Status),
      Status.Convert pkg err = some gs → IsInt32 gs.code →
      Status.Code (some gs) ≠ codes.OK →
      (∀ v ∈ Status.Details (some gs), isErrorInfo v = false) →
      errorDecode pkg err = .ok (some (.structured
        { Code := gs.code, Reason := (pkg.fromNonNil (.status gs)).Reason,
          Message := (pkg.fromNonNil (.status gs)).Message,
          Details := (pkg.fromNonNil (.status gs)).Details }))) ∧
    errorDecode refPkg (some (.plain (utf8 "connection reset"))) = .ok (some (.structured
      { Code := 2, Reason := utf8 "", Message := utf8 "connection reset", Details := [] })) := by
  refine ⟨?_, rfl, ?_, rfl⟩
  · intro v hv
    have hd : Status.Details (some okRetryStatus) = [.message retryInfo] := rfl
    rw [hd, List.mem_singleton] at hv
    rw [hv]; rfl
  · intro pkg err gs hgs h32 hcode hnone
    have herr : Status.Err (some gs) = some (.status gs) := by
      simp [Status.Err, hcode]
    simp only [errorDecode, hgs, herr, ErrorsPkg.FromError, decodeLoop_none _ _ hnone,
      Status.Code, toInt32_toUint32 _ h32]

/-! ## Claims about the wrappers `Server` and `Client` -/

/-- C8 (wrapper success passthrough). For every option list, next-handler,
context and request such that the next-handler returns the reply `v` and no
error, the handlers built by `Server` and by `Client` return `v` and no error.
The configured error handler is not called: the result is the same whatever
the options make of it, a handler that always panics included. -/
theorem C8_wrapper_success_passthrough {Ctx Req Reply : Type} (pkg : ErrorsPkg)
    (opts : List MiddlewareOption) (next : Handler Ctx Req Reply) (ctx : Ctx) (req : Req)
    (v : Option Reply) (hnext : next ctx req = .ok (v, none)) :
    Server pkg opts next ctx req = .ok (v, none) ∧
      Client pkg opts next ctx req = .ok (v, none) := by
  simp [Server, Client, hnext]

/-- Witness of C8: a next-handler replying 42, wrapped with an error handler
that always panics. -/
theorem C8_wrapper_success_passthrough_witness :
    (fun (_ : Unit) (_ : Nat) => (Except.ok (some 42, none) :
        Except Panic (Option Nat × Option GoError))) () 0 = .ok (some 42, none) ∧
    Server refPkg [WithHandler fun _ => .error .nilDereference]
        (fun (_ : Unit) (_ : Nat) => .ok (some 42, none)) () 0 = .ok (some 42, none) ∧
    Client refPkg [WithHandler fun _ => .error .nilDereference]
        (fun (_ : Unit) (_ : Nat) => .ok (some 42, none)) () 0 = .ok (some 42, none) :=
  ⟨rfl, C8_wrapper_success_passthrough refPkg [WithHandler fun _ => .error .nilDereference]
    (fun (_ : Unit) (_ : Nat) => .ok (some 42, none)) () 0 (some 42) rfl⟩

/-- C9 (wrapper error routing). For every next-handler that returns a reply
together with an error `e`, the wrapped handler returns the nil reply paired
with `h e`, where `h` is the handler left in the options by the option loop
(and panics when `h` panics); with no options `h` is `errorEncode` for `Server`
and `errorDecode` for `Client`, and with the single option `WithHandler g` it is
`g` for both. -/
theorem C9_wrapper_error_routing {Ctx Req Reply : Type} (pkg : ErrorsPkg)
    (opts : List MiddlewareOption) (g : HandlerFunc) (next : Handler Ctx Req Reply)
    (ctx : Ctx) (req : Req) (reply : Option Reply) (e : GoError)
    (hnext : next ctx req = .ok (reply, some e)) :
    Server pkg opts next ctx req =
        ((applyOptions { handler := errorEncode pkg } opts).handler (some e)).map
          (fun r => (none, r)) ∧
      Client pkg opts next ctx req =
        ((applyOptions { handler := errorDecode pkg } opts).handler (some e)).map
          (fun r => (none, r)) ∧
      Server pkg [] next ctx req = (errorEncode pkg (some e)).map (fun r => (none, r)) ∧
      Client pkg [] next ctx req = (errorDecode pkg (some e)).map (fun r => (none, r)) ∧
      Server pkg [WithHandler g] next ctx req = (g (some e)).map (fun r => (none, r)) ∧
      Client pkg [WithHandler g] next ctx req = (g (some e)).map (fun r => (none, r)) := by
  have hs : ∀ o : List MiddlewareOption, Server pkg o next ctx req =
      ((applyOptions { handler := errorEncode pkg } o).handler (some e)).map
        (fun r => (none, r)) := by
    intro o
    simp only [Server, hnext]
    cases (applyOptions { handler := errorEncode pkg } o).handler (some e) <;> rfl
  have hc : ∀ o : List MiddlewareOption, Client pkg o next ctx req =
      ((applyOptions { handler := errorDecode pkg } o).handler (some e)).map
        (fun r => (none, r)) := by
    intro o
    simp only [Client, hnext]
    cases (applyOptions { handler := errorDecode pkg } o).handler (some e) <;> rfl
  exact ⟨hs opts, hc opts, hs [], hc [], hs [WithHandler g], hc [WithHandler g]⟩

/-- Witness of C9: the next-handler fails with a structured error and a reply;
`Server` without options returns the nil reply and the encoded wire status. -/
theorem C9_wrapper_error_routing_witness :
    (fun (_ : Unit) (_ : Nat) => (Except.ok (some 42, some (.structured unsetXY)) :
        Except Panic (Option Nat × Option GoError))) () 0 =
      .ok (some 42, some (.structured unsetXY)) ∧
    Server refPkg [] (fun (_ : Unit) (_ : Nat) => .ok (some 42, some (.structured unsetXY))) () 0 =
      .ok (none, some (.status (encoded unsetXY []))) :=
  ⟨rfl, (C9_wrapper_error_routing refPkg [] (errorDecode refPkg)
    (fun (_ : Unit) (_ : Nat) => .ok (some 42, some (.structured unsetXY))) () 0 (some 42)
    (.structured unsetXY) rfl).2.2.1⟩

/-! ## The failure paths of `errorEncode` -/

theorem envelopes_cases (anys : List AnyMsg) :
    (∃ ms, List.Forall₂ (fun a m => UnmarshalAny a = .ok m) anys ms) ∨
      ∃ pre bad post e, anys = pre ++ bad :: post ∧
        (∀ a ∈ pre, ∃ m, UnmarshalAny a = .ok m) ∧ UnmarshalAny bad = .error e := by
  induction anys with
  | nil => exact Or.inl ⟨[], List.Forall₂.nil⟩
  | cons a rest ih =>
    cases hu : UnmarshalAny a with
    | error e =>
      exact Or.inr ⟨[], a, rest, e, rfl, fun _ h => absurd h (List.not_mem_nil _), hu⟩
    | ok m =>
      rcases ih with ⟨ms, hms⟩ | ⟨pre, bad, post, e, heq, hok, hbad⟩
      · exact Or.inl ⟨m :: ms, List.Forall₂.cons hu hms⟩
      · refine Or.inr ⟨a :: pre, bad, post, e, by rw [heq]; rfl, ?_, hbad⟩
        intro x hx
        rcases List.mem_cons.mp hx with rfl | hx2
        · exact ⟨m, hu⟩
        · exact hok x hx2

theorem refPkg_preexisting (se : Error) :
    preexisting refPkg se = se.Details.map asAny := by
  have hd : (normalizeCode se).Details = se.Details := by
    unfold normalizeCode; split <;> rfl
  simp only [preexisting, refPkg, Status.Details, List.map_map, hd]
  apply List.map_congr_left
  intro a _
  simp [UnmarshalAny, Message.wellFormed, asAny]

theorem refPkg_envelopeForm : EnvelopeForm refPkg := by
  intro se
  refine ⟨se.Details, ?_⟩
  simp only [refPkg, Status.Details, List.map_map]
  apply List.map_congr_left
  intro a _
  simp [UnmarshalAny, Message.wellFormed, asAny]

/-- Counterexample to C10: an error without details (so every pre-existing
detail converts) whose message is not valid UTF-8. Attaching the detail list
fails, `errorEncode` returns the serialization failure (lines 91 to 94) and no
wire status. -/
theorem C10_attach_fails_on_garbled :
    IsInt32 garbledPlain.Code ∧ preexisting refPkg garbledPlain = [] ∧
    errorEncode refPkg (some (.structured garbledPlain)) = .ok (some invalidUTF8Error) ∧
    ∀ st, invalidUTF8Error ≠ .status st :=
  ⟨by decide, rfl, rfl, fun _ h => by cases h⟩

/-- C10 as amended (the failure paths of encoding). For every error with an
`int32` code in its structured view `se` and with pre-existing details that are
envelopes which all unpack (in particular when there are none): when the reason
and the message of `se` are valid UTF-8, `errorEncode` returns a wire status,
the attach step not being refused since the code is not `codes.OK` after line
75; otherwise it returns the serialization failure of the attach step. -/
theorem C10_failure_paths (pkg : ErrorsPkg) (err : Option GoError) (se : Error)
    (anys : List AnyMsg) (ms : List Message)
    (hse : pkg.FromError err = some se) (h32 : IsInt32 se.Code)
    (hpre : preexisting pkg se = anys.map asAny)
    (hconv : List.Forall₂ (fun a m => UnmarshalAny a = .ok m) anys ms) :
    (validUTF8 se.Reason = true → validUTF8 se.Message = true →
        ∃ st, errorEncode pkg err = .ok (some (.status st))) ∧
      ((validUTF8 se.Reason && validUTF8 se.Message) = false →
        errorEncode pkg err = .ok (some invalidUTF8Error)) :=
  ⟨fun hr hm => ⟨encoded se ms,
      errorEncode_of_converts pkg err se anys ms hse h32 hr hm hpre hconv⟩,
    fun hbad => errorEncode_of_garbled pkg err se anys ms hse h32 hbad hpre hconv⟩

/-- Witness of C10 as amended: an error with the unset code, no details and a
valid reason and message is encoded to a wire status. -/
theorem C10_failure_paths_witness :
    refPkg.FromError (some (.structured unsetXY)) = some unsetXY ∧ IsInt32 unsetXY.Code ∧
    preexisting refPkg unsetXY = ([] : List AnyMsg).map asAny ∧
    List.Forall₂ (fun a m => UnmarshalAny a = .ok m) [] [] ∧
    validUTF8 unsetXY.Reason = true ∧ validUTF8 unsetXY.Message = true ∧
    ∃ st, errorEncode refPkg (some (.structured unsetXY)) = .ok (some (.status st)) :=
  ⟨rfl, by decide, rfl, List.Forall₂.nil, by decide, by decide,
    (C10_failure_paths refPkg (some (.structured unsetXY)) unsetXY [] [] rfl (by decide) rfl
      List.Forall₂.nil).1 (by decide) (by decide)⟩

/-! ## Failure of `errorDecode` -/

/-- C11 (decode never fails) does not hold of the code. On an error whose wire
status carries `codes.OK`, `gs.Err()` is the nil error, and `errorDecode`
dereferences what `errors.FromError` returns for nil: with the nil pointer
there, line 101 panics. The evaluation at `okStatus` comes first; then, for
every instance of the error abstraction, the panic on every input whose
status code is `codes.OK` when `FromError(nil)` is nil; last, the part of the
claim that holds: on every input whose status code is not `codes.OK` (a
generic non-status error among them) a structured error is returned. -/
theorem C11_decode_ok_status_panics :
    errorDecode refPkg (some (.status okStatus)) = .error .nilDereference ∧
    (∀ (pkg : ErrorsPkg) (err : Option GoError),
      Status.Code (Status.Convert pkg err) = codes.OK → pkg.fromNil = none →
        errorDecode pkg err = .error .nilDereference) ∧
    (∀ (pkg : ErrorsPkg) (err : Option GoError),
      Status.Code (Status.Convert pkg err) ≠ codes.OK →
        ∃ e, errorDecode pkg err = .ok (some (.structured e))) := by
  refine ⟨rfl, ?_, ?_⟩
  · intro pkg err hok hnil
    simp [errorDecode, Status.Err, hok, ErrorsPkg.FromError, hnil]
  · intro pkg err hne
    cases hgs : Status.Convert pkg err with
    | none => rw [hgs] at hne; exact absurd rfl hne
    | some s =>
      rw [hgs] at hne
      refine ⟨decodeLoop { pkg.fromNonNil (.status s) with
        Code := toInt32 (Status.Code (some s)) } (Status.Details (some s)), ?_⟩
      simp [errorDecode, hgs, Status.Err, hne, ErrorsPkg.FromError]

/-! ## Errors are not swallowed -/

/-- Counterexample to C12: an error without details whose reason is not valid
UTF-8. What `errorEncode` returns is neither the encoded wire status nor the
conversion failure of a detail (there is none): it is the serialization
failure of the attach step. -/
theorem C12_third_outcome :
    IsInt32 garbledInternal.Code ∧ preexisting refPkg garbledInternal = [] ∧
    errorEncode refPkg (some (.structured garbledInternal)) = .ok (some invalidUTF8Error) ∧
    ∀ st, invalidUTF8Error ≠ .status st :=
  ⟨by decide, rfl, rfl, fun _ h => by cases h⟩

/-- C12 as amended (an error is never swallowed). When the error abstraction
hands over the pre-existing details as envelopes, then for every non-nil input
error with an `int32` code in its structured view, `errorEncode` returns a
non-nil error: the encoded wire status, or the conversion failure of one of
the pre-existing details, or the serialization failure of the attach step when
reason or message is not valid UTF-8. So a handler wrapped by `Server` whose
next-handler fails with that error returns the nil reply and a non-nil error,
never success. -/
theorem C12_error_never_swallowed {Ctx Req Reply : Type} (pkg : ErrorsPkg)
    (henv : EnvelopeForm pkg) (err : GoError)
    (h32 : IsInt32 (pkg.fromNonNil err).Code) :
    (∃ e, errorEncode pkg (some err) = .ok (some e) ∧
      ((∃ st, e = .status st) ∨
        (∃ a, asAny a ∈ preexisting pkg (pkg.fromNonNil err) ∧ UnmarshalAny a = .error e) ∨
        (e = invalidUTF8Error ∧
          (validUTF8 (pkg.fromNonNil err).Reason &&
            validUTF8 (pkg.fromNonNil err).Message) = false))) ∧
    (∀ (next : Handler Ctx Req Reply) (ctx : Ctx) (req : Req) (reply : Option Reply),
      next ctx req = .ok (reply, some err) →
        ∃ e, Server pkg [] next ctx req = .ok (none, some e)) := by
  have hse : pkg.FromError (some err) = some (pkg.fromNonNil err) := rfl
  obtain ⟨anys, hpre0⟩ := henv (normalizeCode (pkg.fromNonNil err))
  have hpre : preexisting pkg (pkg.fromNonNil err) = anys.map asAny := hpre0
  have hret : ∃ e, errorEncode pkg (some err) = .ok (some e) ∧
      ((∃ st, e = .status st) ∨
        (∃ a, asAny a ∈ preexisting pkg (pkg.fromNonNil err) ∧ UnmarshalAny a = .error e) ∨
        (e = invalidUTF8Error ∧
          (validUTF8 (pkg.fromNonNil err).Reason &&
            validUTF8 (pkg.fromNonNil err).Message) = false)) := by
    rcases envelopes_cases anys with ⟨ms, hconv⟩ | ⟨pre, bad, post, e, heq, hok, hbad⟩
    · cases hv : (validUTF8 (pkg.fromNonNil err).Reason &&
          validUTF8 (pkg.fromNonNil err).Message) with
      | false =>
        exact ⟨invalidUTF8Error,
          errorEncode_of_garbled pkg (some err) _ anys ms hse h32 hv hpre hconv,
          Or.inr (Or.inr ⟨rfl, rfl⟩)⟩
      | true =>
        rw [Bool.and_eq_true] at hv
        exact ⟨.status (encoded (pkg.fromNonNil err) ms),
          errorEncode_of_converts pkg (some err) _ anys ms hse h32 hv.1 hv.2 hpre hconv,
          Or.inl ⟨_, rfl⟩⟩
    · refine ⟨e, ?_, Or.inr (Or.inl ⟨bad, ?_, hbad⟩)⟩
      · have hp : preexisting pkg (pkg.fromNonNil err) =
            pre.map asAny ++ asAny bad :: post.map asAny := by
          rw [hpre, heq]; simp
        rw [errorEncode_unfold pkg (some err) _ hse, hp,
          encodeLoop_returned pre bad (post.map asAny) e hok hbad]
      · rw [hpre, heq]; simp
  refine ⟨hret, ?_⟩
  intro next ctx req reply hnext
  obtain ⟨e, he, _⟩ := hret
  exact ⟨e, by simp only [Server, applyOptions, List.foldl_nil, hnext, he]⟩

/-- Witness of C12 as amended: the error with the unset code is encoded to a
non-nil error, and a handler wrapped by `Server` that fails with it returns the
nil reply and a non-nil error. -/
theorem C12_error_never_swallowed_witness :
    EnvelopeForm refPkg ∧ IsInt32 (refPkg.fromNonNil (.structured unsetXY)).Code ∧
    (∃ e, errorEncode refPkg (some (.structured unsetXY)) = .ok (some e)) ∧
    ∃ e, Server refPkg [] (failing (.structured unsetXY)) () 0 = .ok (none, some e) :=
  ⟨refPkg_envelopeForm, by decide,
    (@C12_error_never_swallowed Unit Nat Nat refPkg refPkg_envelopeForm
      (.structured unsetXY) (by decide)).1.imp (fun _ h => h.1),
    (@C12_error_never_swallowed Unit Nat Nat refPkg refPkg_envelopeForm
      (.structured unsetXY) (by decide)).2 (failing (.structured unsetXY)) () 0 (some 42) rfl⟩

/-! ## The memory effect of `errorEncode` -/

/-- Counterexample to C13: the input error with the unset code 0 at pointer 1
has the code 2 after the call, so the code after the call is not the code
before it. -/
theorem C13_input_code_overwritten :
    unsetHeap 1 = some unsetXY ∧
    errorEncodeStore unsetHeap 1 1 = some { unsetXY with Code := 2 } ∧
    (errorEncodeStore unsetHeap 1 1).map (fun e => e.Code) ≠
      (unsetHeap 1).map (fun e => e.Code) := by
  refine ⟨rfl, rfl, ?_⟩
  have h1 : (errorEncodeStore unsetHeap 1 1).map (fun e => e.Code) = some 2 := rfl
  have h2 : (unsetHeap 1).map (fun e => e.Code) = some 0 := rfl
  rw [h1, h2]
  decide

/-- C13 as amended. For every structured error `e` that `se` points to when
`errorEncode` is called, the reason, message and details of `e` after the call
are those before it; its code is unchanged when it is not 0 and is overwritten
in place by `codes.Unknown` (2) when it is the unset value 0; the struct is
then the normalized error that the rest of `errorEncode` reads, and no other
struct in memory is written. -/
theorem C13_encode_memory_effect (h : Heap) (se : Ptr) (e : Error) (he : h se = some e) :
    errorEncodeStore h se se =
        some { Code := if e.Code = 0 then 2 else e.Code, Reason := e.Reason,
               Message := e.Message, Details := e.Details } ∧
      errorEncodeStore h se se = some (normalizeCode e) ∧
      (e.Code ≠ 0 → errorEncodeStore h se = h) ∧
      ∀ q, q ≠ se → errorEncodeStore h se q = h q := by
  by_cases h0 : e.Code = 0
  · have hs : errorEncodeStore h se = Heap.store h se { e with Code := toInt32 codes.Unknown } := by
      simp only [errorEncodeStore, he, if_pos h0]
    refine ⟨?_, ?_, fun hn => absurd h0 hn, ?_⟩
    · rw [hs]; simp [Heap.store, h0, toInt32, codes.Unknown]
    · rw [hs]; simp [Heap.store, normalizeCode, h0]
    · intro q hq; rw [hs]; simp [Heap.store, hq]
  · have hs : errorEncodeStore h se = h := by
      simp only [errorEncodeStore, he, if_neg h0]
    refine ⟨?_, ?_, fun _ => hs, ?_⟩
    · rw [hs, he]; simp [h0]
    · rw [hs, he]; simp [normalizeCode, h0]
    · intro q _; rw [hs]

/-- Witness of C13 as amended: the error with the unset code at pointer 1. -/
theorem C13_encode_memory_effect_witness :
    unsetHeap 1 = some unsetXY ∧
    errorEncodeStore unsetHeap 1 1 =
      some { Code := 2, Reason := utf8 "X", Message := utf8 "Y", Details := [] } :=
  ⟨rfl, (C13_encode_memory_effect unsetHeap 1 unsetXY rfl).1⟩

/-! ## An error-info attachment without a "message" entry -/

/-- Counterexample to C14: the status `bareInfoStatus` has the text "boom" and an
error-info attachment whose metadata has no "message" entry; the baseline
message is "boom", and the decoded message is the empty string. -/
theorem C14_decoded_message_empty :
    (refPkg.fromNonNil (.status bareInfoStatus)).Message = utf8 "boom" ∧
    errorDecode refPkg (some (.status bareInfoStatus)) = .ok (some (.structured
      { Code := 3, Reason := utf8 "BAD_INPUT", Message := utf8 "", Details := [] })) ∧
    utf8 "" ≠ utf8 "boom" :=
  ⟨rfl, rfl, by decide⟩

/-- C14 as amended. For every error whose wire status `gs` has a code other than
`codes.OK` and a first error-info attachment whose metadata has no "message"
entry, `errorDecode` returns the structured error with the code of `gs`, the
reason of that attachment and the empty string as message, whatever the
baseline message is. -/
theorem C14_missing_message_entry (pkg : ErrorsPkg) (err : Option GoError) (gs : Status)
    (before after : List DetailValue) (domain reason : GoString)
    (metadata : List (GoString × GoString))
    (hgs : Status.Convert pkg err = some gs) (h32 : IsInt32 gs.code)
    (hcode : Status.Code (some gs) ≠ codes.OK)
    (hdet : Status.Details (some gs) =
      before ++ .message (.errorInfo domain reason metadata) :: after)
    (hbefore : ∀ v ∈ before, isErrorInfo v = false)
    (hmissing : metadata.lookup (utf8 "message") = none) :
    errorDecode pkg err = .ok (some (.structured
      { Code := gs.code, Reason := reason, Message := utf8 "",
        Details := (pkg.fromNonNil (.status gs)).Details })) := by
  have herr : Status.Err (some gs) = some (.status gs) := by
    simp [Status.Err, hcode]
  simp only [errorDecode, hgs, herr, ErrorsPkg.FromError, hdet,
    decodeLoop_first _ before after domain reason metadata hbefore, Status.Code,
    toInt32_toUint32 _ h32, mapIndex, hmissing, Option.getD_none]

/-- Witness of C14 as amended: the status `bareInfoStatus`. -/
theorem C14_missing_message_entry_witness :
    Status.Convert refPkg (some (.status bareInfoStatus)) = some bareInfoStatus ∧
    IsInt32 bareInfoStatus.code ∧
    Status.Code (some bareInfoStatus) ≠ codes.OK ∧
    Status.Details (some bareInfoStatus) =
      [] ++ .message (.errorInfo (utf8 "") (utf8 "BAD_INPUT")
        [(utf8 "hint", utf8 "check the id")]) :: [] ∧
    (∀ v ∈ ([] : List DetailValue), isErrorInfo v = false) ∧
    [(utf8 "hint", utf8 "check the id")].lookup (utf8 "message") = none ∧
    errorDecode refPkg (some (.status bareInfoStatus)) = .ok (some (.structured
      { Code := 3, Reason := utf8 "BAD_INPUT", Message := utf8 "", Details := [] })) :=
  ⟨rfl, by decide, by decide, rfl, fun _ hv => absurd hv (List.not_mem_nil _), by decide,
    C14_missing_message_entry refPkg (some (.status bareInfoStatus)) bareInfoStatus [] []
      (utf8 "") (utf8 "BAD_INPUT") [(utf8 "hint", utf8 "check the id")] rfl (by decide)
      (by decide) rfl (fun _ hv => absurd hv (List.not_mem_nil _)) (by decide)⟩

/-! ## Overrides -/

theorem applyOptions_withHandlers (init : options) (hs : List HandlerFunc) (hne : hs ≠ []) :
    applyOptions init (hs.map WithHandler) = { handler := hs.getLast hne } := by
  induction hs generalizing init with
  | nil => exact absurd rfl hne
  | cons h rest ih =>
    by_cases hr : rest = []
    · subst hr; rfl
    · have := ih (WithHandler h init) hr
      simp only [applyOptions, List.map_cons, List.foldl_cons] at this ⊢
      rw [this, List.getLast_cons hr]

/-- C15 (last override wins). For every non-empty list of handlers `hs`, given
as the options `WithHandler h`, and every next-handler that fails with an error
`e`, the handlers built by `Server` and by `Client` return the nil reply with
the result of the last handler of `hs` on `e`; neither the default of the role
nor an earlier override takes part in the result. -/
theorem C15_last_override_wins {Ctx Req Reply : Type} (pkg : ErrorsPkg)
    (hs : List HandlerFunc) (hne : hs ≠ []) (next : Handler Ctx Req Reply) (ctx : Ctx)
    (req : Req) (reply : Option Reply) (e : GoError)
    (hnext : next ctx req = .ok (reply, some e)) :
    Server pkg (hs.map WithHandler) next ctx req =
        (hs.getLast hne (some e)).map (fun r => (none, r)) ∧
      Client pkg (hs.map WithHandler) next ctx req =
        (hs.getLast hne (some e)).map (fun r => (none, r)) := by
  constructor
  · simp only [Server, applyOptions_withHandlers _ hs hne, hnext]
    cases hs.getLast hne (some e) <;> rfl
  · simp only [Client, applyOptions_withHandlers _ hs hne, hnext]
    cases hs.getLast hne (some e) <;> rfl

/-- Witness of C15: two overrides that would panic come before the last one,
whose result is returned. -/
theorem C15_last_override_wins_witness :
    [crash, crash, relabel "last"] ≠ [] ∧
    failing (.plain (utf8 "down")) () 0 = .ok (some 42, some (.plain (utf8 "down"))) ∧
    Server refPkg ([crash, crash, relabel "last"].map WithHandler)
        (failing (.plain (utf8 "down"))) () 0 = .ok (none, some (.plain (utf8 "last"))) ∧
    Client refPkg ([crash, crash, relabel "last"].map WithHandler)
        (failing (.plain (utf8 "down"))) () 0 = .ok (none, some (.plain (utf8 "last"))) :=
  ⟨by simp, rfl,
    C15_last_override_wins refPkg [crash, crash, relabel "last"] (by simp)
      (failing (.plain (utf8 "down"))) () 0 (some 42) (.plain (utf8 "down")) rfl⟩

/-- C16 (the role only selects the default). For every non-empty list of
handlers given as the options `WithHandler h`, every next-handler, context and
request, the handler built by `Server` and the handler built by `Client` return
the same result. -/
theorem C16_role_only_selects_default {Ctx Req Reply : Type} (pkg : ErrorsPkg)
    (hs : List HandlerFunc) (hne : hs ≠ []) (next : Handler Ctx Req Reply) (ctx : Ctx)
    (req : Req) :
    Server pkg (hs.map WithHandler) next ctx req =
      Client pkg (hs.map WithHandler) next ctx req := by
  simp only [Server, Client, applyOptions_withHandlers _ hs hne]

/-- Witness of C16: one override, on a next-handler that fails. -/
theorem C16_role_only_selects_default_witness :
    [relabel "same"] ≠ [] ∧
    Server refPkg ([relabel "same"].map WithHandler) (failing (.structured unsetXY)) () 0 =
      Client refPkg ([relabel "same"].map WithHandler) (failing (.structured unsetXY)) () 0 :=
  ⟨by simp,
    C16_role_only_selects_default refPkg [relabel "same"] (by simp)
      (failing (.structured unsetXY)) () 0⟩

end StatusMiddleware
